import Mathlib

/-!
Shallow embedding of the MirorScaner coordination layer
(`src/scan/scan_planner.py`, `src/utils/math_utils.py`,
`src/calibration/calibration_service.py`, `src/scan/scan_engine.py`,
`src/hardware/axis_controller.py`, `src/hardware/stm32_controller.py`)
and proofs about the behaviour its specification describes.

Python floats are embedded as exact rationals (`ℚ`); the transcendental
operations the code calls (`math.cos`, `math.sin`, `math.degrees`,
`np.sqrt`, `np.arctan2`) are supplied as parameters of the embedding via
the `TrigModel` structure, so every theorem is parametric in the model of
those irrational functions and the claims' content lives in the exact
arithmetic the code performs around them.
-/

namespace MirorScaner

/-- Embedding of Python's built-in `round` (and `np.round`): round half to
even, as used by `int(round(...))` throughout the code base. -/
def pyRound (q : ℚ) : ℤ :=
  let f : ℤ := ⌊q⌋
  let frac : ℚ := q - f
  if frac < 1/2 then f
  else if 1/2 < frac then f + 1
  else if f % 2 = 0 then f else f + 1

/-- Embedding of Python's float `%` with a positive divisor, used by
`normalize_angle_degrees` in `src/utils/math_utils.py`: the result keeps
the divisor's sign, i.e. it equals `angle - 360 * ⌊angle / 360⌋`. -/
def normalize_angle_degrees (angle : ℚ) : ℚ :=
  angle - 360 * ⌊angle / 360⌋

/-- Parameters standing for the irrational functions Python evaluates in
floating point.  `cosd θ` models `math.cos(math.radians(θ))` (equivalently
`np.cos(np.deg2rad(θ))`), `sind θ` models the same with `sin`, `degOfRad`
models `math.degrees`, `sqrtQ` models `np.sqrt`, and `atan2d y x` models
`np.rad2deg(np.arctan2(y, x))`. -/
structure TrigModel where
  cosd : ℚ → ℚ
  sind : ℚ → ℚ
  degOfRad : ℚ → ℚ
  sqrtQ : ℚ → ℚ
  atan2d : ℚ → ℚ → ℚ

/-- One scan point `(radius_mm, angle_deg, x_mm, y_mm)` as appended by
`ScanPlanner.generate_scan_points`. -/
structure ScanPoint where
  radius_mm : ℚ
  angle_deg : ℚ
  x_mm : ℚ
  y_mm : ℚ
deriving DecidableEq, Repr

/-- Point count `num_points_on_circle` of the planner's `while` body for
one circle of radius `r` (scan_planner.py lines 54-65): the angular step
with its `<= 0` fallback to `1.0`, then `int(round(angle / step))` floored
to at least `1`. -/
def ringCount (T : TrigModel) (arc_step_mm angle_deg r : ℚ) : ℕ :=
  let angular_step0 := T.degOfRad (arc_step_mm / r)
  let angular_step := if angular_step0 ≤ 0 then 1 else angular_step0
  let n0 := pyRound (angle_deg / angular_step)
  if n0 ≤ 0 then 1 else n0.toNat

/-- Corrected angular step `corrected_angular_step_deg` (scan_planner.py
lines 67-71): `angle_deg / (n - 1)` when more than one point, else `0`. -/
def ringStep (T : TrigModel) (arc_step_mm angle_deg r : ℚ) : ℚ :=
  if 1 < ringCount T arc_step_mm angle_deg r then
    angle_deg / ((ringCount T arc_step_mm angle_deg r : ℚ) - 1)
  else 0

/-- One iteration of the planner's inner `for` loop (scan_planner.py lines
74-82): normalize the raw angle and convert to Cartesian coordinates. -/
def ringPoint (T : TrigModel) (r θraw : ℚ) : ScanPoint :=
  let θ := normalize_angle_degrees θraw
  ⟨r, θ, r * T.cosd θ, r * T.sind θ⟩

/-- Body of the `while` loop of `ScanPlanner.generate_scan_points` for one
circle of radius `r` (scan_planner.py lines 53-82). -/
def ringPoints (T : TrigModel) (arc_step_mm angle_deg r : ℚ) : List ScanPoint :=
  (List.range (ringCount T arc_step_mm angle_deg r)).map (fun (i : ℕ) =>
    ringPoint T r ((i : ℚ) * ringStep T arc_step_mm angle_deg r))

/-- Fuel-indexed embedding of the planner's `while current_radius <=
radius_mm` loop (scan_planner.py lines 52-85); `generate_scan_points`
supplies enough fuel for the loop to run to completion. -/
def scanLoop (T : TrigModel) (radius_mm radial_step_mm arc_step_mm angle_deg : ℚ) :
    ℕ → ℚ → List ScanPoint
  | 0, _ => []
  | fuel + 1, current =>
    if current ≤ radius_mm then
      ringPoints T arc_step_mm angle_deg current ++
        scanLoop T radius_mm radial_step_mm arc_step_mm angle_deg fuel
          (current + radial_step_mm)
    else []

/-- Number of iterations the planner's `while` loop performs starting from
`current`, for a positive step. -/
def iterCount (radius_mm radial_step_mm current : ℚ) : ℕ :=
  if current ≤ radius_mm then (⌊(radius_mm - current) / radial_step_mm⌋).toNat + 1 else 0

/-- Embedding of `ScanPlanner.generate_scan_points`.  `none` models the
`ValueError` raised for non-positive parameters; otherwise the angle is
clamped to `360` and the center point plus the concentric rings are
emitted. -/
def generate_scan_points (T : TrigModel)
    (radius_mm radial_step_mm arc_step_mm : ℚ) (angle_deg : ℚ) :
    Option (List ScanPoint) :=
  if radius_mm ≤ 0 ∨ radial_step_mm ≤ 0 ∨ arc_step_mm ≤ 0 then none
  else if angle_deg ≤ 0 then none
  else
    some ((⟨0, 0, 0, 0⟩ : ScanPoint) ::
      scanLoop T radius_mm radial_step_mm arc_step_mm
        (if 360 < angle_deg then 360 else angle_deg)
        ((⌊radius_mm / radial_step_mm⌋).toNat + 1) radial_step_mm)

/-- The ring list the planner's loop amounts to: ring `i` sits at radius
`current + i * step`. -/
def ringList (T : TrigModel) (arc_step_mm angle_deg current radial_step_mm : ℚ)
    (count : ℕ) : List (List ScanPoint) :=
  (List.range count).map (fun (i : ℕ) => ringPoints T arc_step_mm angle_deg
    (current + (i : ℚ) * radial_step_mm))

/-- Concrete rational stand-in for the trigonometric primitives, used only
to instantiate theorems at concrete inputs; the theorems themselves are
parametric in the model. -/
def sampleTrig : TrigModel where
  cosd := fun θ => 1 - θ / 90
  sind := fun θ => θ / 90
  degOfRad := fun x => 573 / 10 * x
  sqrtQ := fun x => x
  atan2d := fun _ _ => 0

/-- One calibration point: integer pixel coordinates paired with rational
world coordinates (`CalibrationPoint` in calibration_point.py). -/
structure CalibPoint where
  image_point : ℤ × ℤ
  world_point : ℚ × ℚ
deriving DecidableEq, Repr

/-- A 3×3 rational matrix, modelling the `np.ndarray` homography. -/
structure Mat3 where
  m00 : ℚ
  m01 : ℚ
  m02 : ℚ
  m10 : ℚ
  m11 : ℚ
  m12 : ℚ
  m20 : ℚ
  m21 : ℚ
  m22 : ℚ
deriving DecidableEq, Repr

/-- Mutable fields of `CalibrationService` that the transform claims
depend on (calibration_service.py lines 29-41); metadata and camera
position are not modelled. -/
structure CalibState where
  points : List CalibPoint
  scale_x : ℚ
  scale_y : ℚ
  offset_x : ℚ
  offset_y : ℚ
  is_calibrated_flag : Bool
  homography_matrix : Option Mat3
  use_homography : Bool
  is_calibrating : Bool
deriving DecidableEq, Repr

/-- State of a freshly constructed `CalibrationService`. -/
def initCalibState : CalibState where
  points := []
  scale_x := 1
  scale_y := 1
  offset_x := 0
  offset_y := 0
  is_calibrated_flag := false
  homography_matrix := none
  use_homography := false
  is_calibrating := false

/-- Embedding of `CalibrationService.is_calibrated` (lines 64-69): at
least one point and either the simple-model flag or a homography
matrix under the homography flag. -/
def CalibState.is_calibrated (s : CalibState) : Bool :=
  decide (0 < s.points.length) &&
    (s.is_calibrated_flag || (s.use_homography && s.homography_matrix.isSome))

/-- Embedding of `CalibrationService.calculate_transformation_simple`
(calibration_service.py lines 126-201).  The pair holds the Python boolean
return value and the state after the call.  The `len(points) < 3` guard
returns `False` before any mutation; the `try` body performs only finite
numpy arithmetic and cannot raise, so the `except` branch is dead. -/
def calculate_transformation_simple (T : TrigModel) (s : CalibState) :
    Bool × CalibState :=
  match s.points with
  | p1 :: p2 :: _ :: _ =>
    let offset_x := (s.points.map (fun p => (p.image_point.1 : ℚ))).sum /
      (s.points.length : ℚ)
    let offset_y := (s.points.map (fun p => (p.image_point.2 : ℚ))).sum /
      (s.points.length : ℚ)
    let delta_img := T.sqrtQ (((p1.image_point.1 : ℚ) - (p2.image_point.1 : ℚ)) ^ 2 +
      ((p1.image_point.2 : ℚ) - (p2.image_point.2 : ℚ)) ^ 2)
    let delta_world_r := |p1.world_point.1 - p2.world_point.1|
    let delta_world_a := |p1.world_point.2 - p2.world_point.2|
    let scale_x := if 1/1000000 < delta_world_r then delta_img / delta_world_r else 1
    let scale_y := if 1/1000000 < delta_world_a then delta_img / delta_world_a else 1
    (true,
      { s with
        scale_x := scale_x, scale_y := scale_y,
        offset_x := offset_x, offset_y := offset_y,
        is_calibrated_flag := true, use_homography := false,
        homography_matrix := none })
  | _ => (false, s)

/-- Pivot selection for the rational Gaussian elimination modelling the
external homography estimator: the first row with a nonzero leading
coefficient, together with the remaining rows. -/
def findPivot : List (List ℚ) → Option (List ℚ × List (List ℚ))
  | [] => none
  | r :: rest =>
    if r.headD 0 ≠ 0 then some (r, rest)
    else
      match findPivot rest with
      | some (p, others) => some (p, r :: others)
      | none => none

/-- Subtract the multiple of the pivot row that clears the leading
coefficient of `row`, then drop that coefficient. -/
def elimRow (pivot row : List ℚ) : List ℚ :=
  (List.zipWith (fun a b => a - row.headD 0 / pivot.headD 0 * b) row pivot).tail

/-- Gaussian elimination with back substitution over `ℚ` for `n` variables
on rows of shape `coefficients ++ [rhs]`; `none` when no pivot exists. -/
def gaussSolve : ℕ → List (List ℚ) → Option (List ℚ)
  | 0, _ => some []
  | n + 1, rows =>
    match findPivot rows with
    | none => none
    | some (p, rest) =>
      match gaussSolve n (rest.map (elimRow p)) with
      | none => none
      | some xs =>
        let tailp := p.tail
        let rhs := tailp.getLastD 0
        let coeffs := tailp.dropLast
        some ((rhs - (List.zipWith (fun c z => c * z) coeffs xs).sum) / p.headD 0 :: xs)

/-- Two direct-linear-transform rows for one world→image correspondence
`(x, y) ↦ (u, v)`, with the homography normalized to `m22 = 1`. -/
def dltRows (p : CalibPoint) : List (List ℚ) :=
  let x := p.world_point.1
  let y := p.world_point.2
  let u := (p.image_point.1 : ℚ)
  let v := (p.image_point.2 : ℚ)
  [[x, y, 1, 0, 0, 0, -(u * x), -(u * y), u],
   [0, 0, 0, x, y, 1, -(v * x), -(v * y), v]]

/-- Model of the external `cv2.findHomography(world_points, img_points,
RANSAC)` call (calibration_service.py line 234).  Modelled from the
library contract as the exact minimal solve: the projective matrix mapping
the first four world points onto their image points (normalized to
`m22 = 1`), found by exact Gaussian elimination, with `none` for a
degenerate configuration.  The claims below use only its success or
failure and the stored matrix, never the estimator's numerics. -/
def findHomography (points : List CalibPoint) : Option Mat3 :=
  match points with
  | a :: b :: c :: d :: _ =>
    match gaussSolve 8 (dltRows a ++ dltRows b ++ dltRows c ++ dltRows d) with
    | some [h0, h1, h2, h3, h4, h5, h6, h7] =>
      some ⟨h0, h1, h2, h3, h4, h5, h6, h7, 1⟩
    | _ => none
  | _ => none

/-- Embedding of `CalibrationService.calculate_transformation_homography`
(calibration_service.py lines 204-268): the `len(points) < 4` guard and
the `matrix is None` failure both return `False` without mutating the
state; success stores the matrix, raises both model flags and resets the
simple coefficients. -/
def calculate_transformation_homography (s : CalibState) : Bool × CalibState :=
  if s.points.length < 4 then (false, s)
  else
    match findHomography s.points with
    | some m =>
      (true,
        { s with
          homography_matrix := some m, use_homography := true,
          is_calibrated_flag := true, scale_x := 1, scale_y := 1,
          offset_x := 0, offset_y := 0 })
    | none => (false, s)

/-- Embedding of `CalibrationService.finish_calibration` (lines 270-317).
`Except.error ()` models the `CalibrationServiceException` raised when no
calibration is in progress.  With too few points the method reports the
error and returns `False` while deliberately leaving `_is_calibrating`
set; otherwise it clears `_is_calibrating` and delegates to the selected
fit.  Metadata updates on success are outside the modelled state. -/
def finish_calibration (T : TrigModel) (s : CalibState) (use_homography : Bool) :
    Except Unit (Bool × CalibState) :=
  if ¬ s.is_calibrating then .error ()
  else if s.points.length < (if use_homography then 4 else 3) then .ok (false, s)
  else
    if use_homography then
      .ok (calculate_transformation_homography { s with is_calibrating := false })
    else
      .ok (calculate_transformation_simple T { s with is_calibrating := false })

/-- Embedding of `CalibrationService.start_calibration` (lines 90-106):
raises when a calibration is already in progress, otherwise replaces the
calibration data with a fresh empty point list and raises the calibrating
flag; the fitted-model fields are untouched. -/
def start_calibration (s : CalibState) : Except Unit CalibState :=
  if s.is_calibrating then .error ()
  else .ok { s with is_calibrating := true, points := [] }

/-- Embedding of `CalibrationService.add_calibration_point` (lines
108-123): raises unless a calibration is in progress. -/
def add_calibration_point (s : CalibState) (p : CalibPoint) :
    Except Unit CalibState :=
  if ¬ s.is_calibrating then .error ()
  else .ok { s with points := s.points ++ [p] }

/-- Embedding of `CalibrationService.cancel_calibration` (lines 319-326). -/
def cancel_calibration (s : CalibState) : CalibState :=
  if s.is_calibrating then { s with is_calibrating := false, points := [] }
  else s

/-- Embedding of `cv2.perspectiveTransform` on a single point: projective
application of a 3×3 matrix; OpenCV maps a zero denominator to the zero
point. -/
def persp (m : Mat3) (x y : ℚ) : ℚ × ℚ :=
  let w := m.m20 * x + m.m21 * y + m.m22
  if w = 0 then (0, 0)
  else ((m.m00 * x + m.m01 * y + m.m02) / w, (m.m10 * x + m.m11 * y + m.m12) / w)

/-- Determinant of a 3×3 rational matrix. -/
def det3 (m : Mat3) : ℚ :=
  m.m00 * (m.m11 * m.m22 - m.m12 * m.m21) -
    m.m01 * (m.m10 * m.m22 - m.m12 * m.m20) +
    m.m02 * (m.m10 * m.m21 - m.m11 * m.m20)

/-- Embedding of `np.linalg.inv` on the 3×3 homography: the adjugate over
the determinant; numpy raises `LinAlgError` on a singular matrix, which
`image_to_world` catches and turns into `None`, so singularity is
modelled as `none`. -/
def inv3 (m : Mat3) : Option Mat3 :=
  if det3 m = 0 then none
  else some
    ⟨(m.m11 * m.m22 - m.m12 * m.m21) / det3 m,
     -(m.m01 * m.m22 - m.m02 * m.m21) / det3 m,
     (m.m01 * m.m12 - m.m02 * m.m11) / det3 m,
     -(m.m10 * m.m22 - m.m12 * m.m20) / det3 m,
     (m.m00 * m.m22 - m.m02 * m.m20) / det3 m,
     -(m.m00 * m.m12 - m.m02 * m.m10) / det3 m,
     (m.m10 * m.m21 - m.m11 * m.m20) / det3 m,
     -(m.m00 * m.m21 - m.m01 * m.m20) / det3 m,
     (m.m00 * m.m11 - m.m01 * m.m10) / det3 m⟩

/-- Embedding of `CalibrationService.world_to_image` (lines 329-377):
`None` before calibration; the homography branch applies the perspective
transform and rounds to integer pixels; the linear branch treats the
input as polar `(radius_mm, angle_deg)`, converts to Cartesian, applies
scale and offset and rounds to integer pixels. -/
def world_to_image (T : TrigModel) (s : CalibState)
    (world_x world_y : ℚ) : Option (ℤ × ℤ) :=
  if ¬ s.is_calibrated then none
  else if s.use_homography && s.homography_matrix.isSome then
    match s.homography_matrix with
    | some m =>
      some (pyRound (persp m world_x world_y).1, pyRound (persp m world_x world_y).2)
    | none => none
  else
    some (pyRound (s.offset_x + world_x * T.cosd world_y * s.scale_x),
      pyRound (s.offset_y + world_x * T.sind world_y * s.scale_y))

/-- Embedding of `CalibrationService.image_to_world` (lines 379-426):
`None` before calibration; the homography branch applies the inverse
matrix (`None` if singular); the linear branch un-applies offset and
scale (with the `1e-6` guards, degenerating to `(0, 0)`) and converts to
polar coordinates, adding `360` to a negative angle. -/
def image_to_world (T : TrigModel) (s : CalibState)
    (image_x image_y : ℤ) : Option (ℚ × ℚ) :=
  if ¬ s.is_calibrated then none
  else if s.use_homography && s.homography_matrix.isSome then
    match s.homography_matrix with
    | some m =>
      match inv3 m with
      | none => none
      | some mi => some (persp mi (image_x : ℚ) (image_y : ℚ))
    | none => none
  else
    if 1/1000000 < |s.scale_x| ∧ 1/1000000 < |s.scale_y| then
      let x_rel := ((image_x : ℚ) - s.offset_x) / s.scale_x
      let y_rel := ((image_y : ℚ) - s.offset_y) / s.scale_y
      let angle := T.atan2d y_rel x_rel
      some (T.sqrtQ (x_rel ^ 2 + y_rel ^ 2),
        if angle < 0 then angle + 360 else angle)
    else some (0, 0)

/-- The fields the specification calls the active model: the model tag,
the simple scale/offset coefficients and the homography matrix. -/
def modelCoefficients (s : CalibState) :
    Bool × ℚ × ℚ × ℚ × ℚ × Option Mat3 :=
  (s.use_homography, s.scale_x, s.scale_y, s.offset_x, s.offset_y,
    s.homography_matrix)

/-- Calls a client can make on `CalibrationService` that touch the
calibration state. -/
inductive CalibOp where
  | startCal : CalibOp
  | addPoint : CalibPoint → CalibOp
  | fitSimple : CalibOp
  | fitHomography : CalibOp
  | finishCal : Bool → CalibOp
  | cancelCal : CalibOp

/-- State after one service call; a raised exception leaves the state as
the Python method does (no mutation precedes the raise). -/
def calibStep (T : TrigModel) (s : CalibState) : CalibOp → CalibState
  | .startCal =>
    match start_calibration s with
    | .ok s2 => s2
    | .error _ => s
  | .addPoint p =>
    match add_calibration_point s p with
    | .ok s2 => s2
    | .error _ => s
  | .fitSimple => (calculate_transformation_simple T s).2
  | .fitHomography => (calculate_transformation_homography s).2
  | .finishCal u =>
    match finish_calibration T s u with
    | .ok r => r.2
    | .error _ => s
  | .cancelCal => cancel_calibration s

/-- Whether the call was a fit that returned `True`. -/
def fitSucceeded (T : TrigModel) (s : CalibState) : CalibOp → Bool
  | .fitSimple => (calculate_transformation_simple T s).1
  | .fitHomography => (calculate_transformation_homography s).1
  | .finishCal u =>
    match finish_calibration T s u with
    | .ok r => r.1
    | .error _ => false
  | _ => false

/-- Run a sequence of service calls from a state. -/
def runCalib (T : TrigModel) : CalibState → List CalibOp → CalibState
  | s, [] => s
  | s, op :: rest => runCalib T (calibStep T s op) rest

/-- Whether some fit in the sequence succeeded. -/
def anyFitSucceeded (T : TrigModel) : CalibState → List CalibOp → Bool
  | _, [] => false
  | s, op :: rest =>
    fitSucceeded T s op || anyFitSucceeded T (calibStep T s op) rest

/-- Cross-product collinearity test for three planar points. -/
def collinear (a b c : ℚ × ℚ) : Bool :=
  decide ((b.1 - a.1) * (c.2 - a.2) - (b.2 - a.2) * (c.1 - a.1) = 0)

/-- No three of the four points collinear: the well-conditioned
requirement for a homography fit. -/
def wellConditioned4 (a b c d : ℚ × ℚ) : Bool :=
  !collinear a b c && !collinear a b d && !collinear a c d && !collinear b c d

/-- Four well-conditioned correspondences: the unit square mapped to
itself. -/
def squarePoints : List CalibPoint :=
  [⟨(0, 0), (0, 0)⟩, ⟨(1, 0), (1, 0)⟩, ⟨(1, 1), (1, 1)⟩, ⟨(0, 1), (0, 1)⟩]

/-- A service state holding the four square correspondences. -/
def squareState : CalibState := { initCalibState with points := squarePoints }

/-- A service state holding two calibration points. -/
def twoPointState : CalibState :=
  { initCalibState with points := [⟨(0, 0), (1, 0)⟩, ⟨(0, 3), (2, 0)⟩] }

/-- A service state holding three calibration points. -/
def threePointState : CalibState :=
  { initCalibState with
    points := [⟨(0, 0), (1, 0)⟩, ⟨(0, 3), (2, 0)⟩, ⟨(3, 0), (3/2, 0)⟩] }

/-- Trig model for the C3 counterexample; it agrees with the genuine
floating-point functions at every argument the counterexample evaluates
them on: cos 0° = 1, sin 0° = 0, √9 = 3, √(25/9) = 5/3 and
atan2(0, 5/3) = 0. -/
def cexTrig : TrigModel where
  cosd := fun θ => if θ = 0 then 1 else 0
  sind := fun _ => 0
  degOfRad := fun q => 57 * q
  sqrtQ := fun q => if q = 9 then 3 else if q = 25/9 then 5/3 else 0
  atan2d := fun _ _ => 0

/-- Calibration points for the C3 counterexample. -/
def cexPoints : List CalibPoint :=
  [⟨(0, 0), (1, 0)⟩, ⟨(0, 3), (2, 0)⟩, ⟨(3, 0), (3/2, 0)⟩]

/-- The state the Linear fit of `cexPoints` produces: pixel centroid
`(1, 1)`, `scale_x = 3` (3 px against 1 mm of radius between the first
two points) and the default `scale_y = 1`. -/
def cexState : CalibState where
  points := cexPoints
  scale_x := 3
  scale_y := 1
  offset_x := 1
  offset_y := 1
  is_calibrated_flag := true
  homography_matrix := none
  use_homography := false
  is_calibrating := false

/-- Trig model for the amended round-trip witnesses, exact at the
arguments used there. -/
def roundTrig : TrigModel where
  cosd := fun θ => if θ = 0 then 1 else 0
  sind := fun _ => 0
  degOfRad := fun q => 57 * q
  sqrtQ := fun q => if q = 25 then 5 else 0
  atan2d := fun _ _ => 0

/-- A fitted linear state for the amended round-trip witness. -/
def linRoundState : CalibState :=
  { initCalibState with
    points := [⟨(0, 0), (0, 0)⟩], is_calibrated_flag := true, scale_x := 2 }

/-- The identity homography. -/
def unitMat3 : Mat3 := ⟨1, 0, 0, 0, 1, 0, 0, 0, 1⟩

/-- A fitted homography state for the amended round-trip witness. -/
def homRoundState : CalibState :=
  { initCalibState with
    points := [⟨(0, 0), (0, 0)⟩], use_homography := true,
    homography_matrix := some unitMat3 }

/-- A state with a calibration session open and no points collected. -/
def calibratingEmpty : CalibState :=
  { initCalibState with is_calibrating := true }

/-- A short session whose finish fails for lack of points. -/
def demoOps : List CalibOp :=
  [CalibOp.startCal, CalibOp.addPoint ⟨(0, 0), (0, 0)⟩, CalibOp.finishCal false]

/-- Events the scan engine reports through its callbacks. -/
inductive EngineEvent where
  | started : EngineEvent
  | progress : ℕ → ℕ → EngineEvent
  | dataPoint : ℚ → ℚ → ℚ → ℚ → EngineEvent
  | stopped : EngineEvent
  | finished : EngineEvent
deriving DecidableEq, Repr

/-- An axis as the scan engine drives it: the positions commanded through
`move_to_async` and the number of `emergency_stop` calls received. -/
structure AxisSim where
  commanded : List ℚ
  estop_count : ℕ
deriving DecidableEq, Repr

/-- The data sink (`IScanDataWriter`): header flag, records
`(radius, angle, min, max)` and the closed flag. -/
structure WriterSim where
  header_written : Bool
  records : List (ℚ × ℚ × ℚ × ℚ)
  closed : Bool
deriving DecidableEq, Repr

/-- Mutable fields of `ScanEngine` (scan_engine.py lines 38-44) together
with its two axes, its data sink and the emitted callback events. -/
structure EngineState where
  is_running : Bool
  is_paused : Bool
  current_point_index : ℕ
  total_points : ℕ
  scan_points : List ScanPoint
  x_axis : AxisSim
  theta_axis : AxisSim
  writer : WriterSim
  events : List EngineEvent
deriving DecidableEq, Repr

/-- One `emergency_stop()` call on an axis. -/
def emergency_stop_axis (a : AxisSim) : AxisSim :=
  { a with estop_count := a.estop_count + 1 }

/-- One `move_to_async` call on an axis. -/
def moveAxis (a : AxisSim) (pos : ℚ) : AxisSim :=
  { a with commanded := a.commanded ++ [pos] }

/-- Embedding of `ScanEngine.stop_scan` (scan_engine.py lines 217-229):
within a running scan it clears both flags, calls `emergency_stop` on the
linear axis and then on the rotary axis once each and emits the stopped
callback; otherwise it does nothing.  It does not itself close the sink —
the loop's `finally` block does that once the loop observes the cleared
flag. -/
def stop_scan (s : EngineState) : EngineState :=
  if s.is_running then
    { s with
      is_running := false, is_paused := false,
      x_axis := emergency_stop_axis s.x_axis,
      theta_axis := emergency_stop_axis s.theta_axis,
      events := s.events ++ [EngineEvent.stopped] }
  else s

/-- One iteration body of `_execute_scan_loop` (scan_engine.py lines
141-177): set the index, emit progress, move the linear axis then the
rotary axis, stabilization delay (timing is not modelled), then grab a
frame and compute statistics — `cam i = none` models a failed capture or
a statistics exception, in which case the point is skipped with only a
log; on success write the record and emit the data callback. -/
def scanPointStep (cam : ℕ → Option (ℚ × ℚ)) (i : ℕ) (pt : ScanPoint)
    (s : EngineState) : EngineState :=
  let s1 := { s with
    current_point_index := i,
    events := s.events ++ [EngineEvent.progress i s.total_points] }
  let s2 := { s1 with x_axis := moveAxis s1.x_axis pt.x_mm }
  let s3 := { s2 with theta_axis := moveAxis s2.theta_axis pt.angle_deg }
  match cam i with
  | some (mn, mx) =>
    { s3 with
      writer := { s3.writer with
        records := s3.writer.records ++
          [(pt.radius_mm, pt.angle_deg, mn, mx)] },
      events := s3.events ++
        [EngineEvent.dataPoint pt.radius_mm pt.angle_deg mn mx] }
  | none => s3

/-- The `for` loop of `_execute_scan_loop` over the enumerated points
(scan_engine.py lines 134-177).  `stopAt = some k` models a concurrent
`stop_scan` call landing at the iteration boundary before point `k`; the
loop then observes `is_running = False` and breaks.  An engine paused
with nobody to resume it would spin forever in the inner `while`; that
divergence is returned as `none`. -/
def scanIter (cam : ℕ → Option (ℚ × ℚ)) (stopAt : Option ℕ) :
    List (ℕ × ScanPoint) → EngineState → Option EngineState
  | [], s => some s
  | (i, pt) :: rest, s =>
    let s0 := if stopAt = some i then stop_scan s else s
    if ¬ s0.is_running then some s0
    else if s0.is_paused then none
    else scanIter cam stopAt rest (scanPointStep cam i pt s0)

/-- Embedding of `ScanEngine._execute_scan_loop` (scan_engine.py lines
131-199): the loop, then the completion block (clear `is_running`, emit
`on_scan_finished`) and the `finally` block closing the data writer. -/
def execute_scan_loop (cam : ℕ → Option (ℚ × ℚ)) (stopAt : Option ℕ)
    (s : EngineState) : Option EngineState :=
  match scanIter cam stopAt s.scan_points.enum s with
  | none => none
  | some s1 =>
    some { s1 with
      is_running := false,
      events := s1.events ++ [EngineEvent.finished],
      writer := { s1.writer with closed := true } }

/-- The engine state right after the `start_scan` prologue succeeds
(scan_engine.py lines 103-119): points installed, counters reset, flags
set, header written, started event emitted, fresh axes. -/
def startedEngine (pts : List ScanPoint) : EngineState where
  is_running := true
  is_paused := false
  current_point_index := 0
  total_points := pts.length
  scan_points := pts
  x_axis := ⟨[], 0⟩
  theta_axis := ⟨[], 0⟩
  writer := ⟨true, [], false⟩
  events := [EngineEvent.started]

/-- A camera that fails exactly at point index `k` and otherwise delivers
the min/max statistics `f i`. -/
def camFailAt (f : ℕ → ℚ × ℚ) (k : ℕ) : ℕ → Option (ℚ × ℚ) :=
  fun i => if i = k then none else some (f i)

/-- Axis identity of an `AxisController` (`axis_name.upper()`). -/
inductive Axis where
  | X : Axis
  | THETA : Axis
deriving DecidableEq, Repr

/-- Three-digit zero-padded decimal string. -/
def pad3 (n : ℕ) : String :=
  if n < 10 then "00" ++ toString n
  else if n < 100 then "0" ++ toString n
  else toString n

/-- Embedding of Python's fixed-point formatting `f"{q:.3f}"`: round half
to even at the third decimal, then print with exactly three decimals.
(The `-0.000` sign of a tiny negative value is not modelled.) -/
def fmt3 (q : ℚ) : String :=
  let scaled := pyRound (q * 1000)
  let sign := if scaled < 0 then "-" else ""
  let n := scaled.natAbs
  sign ++ toString (n / 1000) ++ "." ++ pad3 (n % 1000)

/-- Embedding of `Stm32ControllerService.move_to` (stm32_controller.py
lines 280-286): one `send_command` of the single wire line
`move 0 <x_mm> <theta_deg>`. -/
def stm32_move_to (x_mm theta_deg : ℚ) : String :=
  "move 0 " ++ fmt3 x_mm ++ " " ++ fmt3 theta_deg

/-- The wire commands one `AxisController.move_to_async` call sends
(axis_controller.py lines 144-147): the X axis issues
`controller.move_to(position, 0)` and the THETA axis issues
`controller.move_to(0, position)` — exactly one line either way. -/
def move_to_async_commands (axis : Axis) (position : ℚ) : List String :=
  match axis with
  | .X => [stm32_move_to position 0]
  | .THETA => [stm32_move_to 0 position]

/-- Two concrete scan points for the engine witnesses. -/
def demoScanPoints : List ScanPoint := [⟨1, 0, 1, 0⟩, ⟨2, 90, 0, 2⟩]

/-- A camera that always succeeds with fixed statistics. -/
def demoCam : ℕ → Option (ℚ × ℚ) := fun _ => some (20, 30)

/-- Per-point statistics for the capture-failure witness. -/
def demoStats : ℕ → ℚ × ℚ := fun i => ((i : ℚ), (i : ℚ) + 1)

lemma ringCount_pos (T : TrigModel) (arc angle r : ℚ) :
    0 < ringCount T arc angle r := by
  simp only [ringCount]
  split <;> split <;> omega

lemma ringPoints_length (T : TrigModel) (arc angle r : ℚ) :
    (ringPoints T arc angle r).length = ringCount T arc angle r := by
  unfold ringPoints
  rw [List.length_map, List.length_range]

lemma ringPoints_ne_nil (T : TrigModel) (arc angle r : ℚ) :
    ringPoints T arc angle r ≠ [] := by
  have h := ringPoints_length T arc angle r
  have hpos := ringCount_pos T arc angle r
  intro hnil
  rw [hnil] at h
  simp only [List.length_nil] at h
  omega

lemma ringPoints_radius (T : TrigModel) (arc angle r : ℚ) :
    ∀ p ∈ ringPoints T arc angle r, p.radius_mm = r := by
  intro p hp
  simp only [ringPoints, List.mem_map, List.mem_range] at hp
  obtain ⟨i, _, rfl⟩ := hp
  rfl

lemma iterCount_succ {radius step c : ℚ} (hstep : 0 < step) (hc : c ≤ radius) :
    iterCount radius step c = iterCount radius step (c + step) + 1 := by
  unfold iterCount
  by_cases h2 : c + step ≤ radius
  · rw [if_pos hc, if_pos h2]
    have hd : (radius - (c + step)) / step = (radius - c) / step - 1 := by
      field_simp
      ring
    have h1 : (1 : ℚ) ≤ (radius - c) / step := by
      rw [le_div_iff₀ hstep]
      linarith
    have hfl : (1 : ℤ) ≤ ⌊(radius - c) / step⌋ := by
      exact_mod_cast Int.le_floor.mpr (by exact_mod_cast h1)
    rw [hd]
    rw [Int.floor_sub_one]
    omega
  · rw [if_pos hc, if_neg h2]
    have hlt : (radius - c) / step < 1 := by
      rw [div_lt_one hstep]
      linarith
    have hge : (0 : ℚ) ≤ (radius - c) / step := by
      apply div_nonneg (by linarith) (le_of_lt hstep)
    have : ⌊(radius - c) / step⌋ = 0 := by
      apply Int.floor_eq_zero_iff.mpr
      rw [Set.mem_Ico]
      exact ⟨hge, hlt⟩
    omega

lemma iterCount_of_gt {radius step c : ℚ} (h : radius < c) :
    iterCount radius step c = 0 := by
  unfold iterCount
  rw [if_neg (not_le.mpr h)]

lemma ringList_succ (T : TrigModel) (arc angle c step : ℚ) (m : ℕ) :
    ringList T arc angle c step (m + 1) =
      ringPoints T arc angle c :: ringList T arc angle (c + step) step m := by
  unfold ringList
  rw [List.range_succ_eq_map, List.map_cons, List.map_map]
  congr 1
  · norm_num
  · apply List.map_congr_left
    intro i _
    simp only [Function.comp_apply]
    congr 1
    push_cast
    ring

lemma scanLoop_eq_ringList (T : TrigModel) (radius step arc angle : ℚ)
    (hstep : 0 < step) :
    ∀ (fuel : ℕ) (c : ℚ), iterCount radius step c ≤ fuel →
      scanLoop T radius step arc angle fuel c =
        (ringList T arc angle c step (iterCount radius step c)).flatten := by
  intro fuel
  induction fuel with
  | zero =>
    intro c hfuel
    have h0 : iterCount radius step c = 0 := Nat.le_zero.mp hfuel
    rw [h0]
    rfl
  | succ n ih =>
    intro c hfuel
    by_cases hc : c ≤ radius
    · have hsucc := @iterCount_succ radius step c hstep hc
      rw [hsucc]
      rw [ringList_succ]
      rw [List.flatten_cons]
      show (if c ≤ radius then
        ringPoints T arc angle c ++
          scanLoop T radius step arc angle n (c + step) else []) = _
      rw [if_pos hc]
      congr 1
      apply ih
      omega
    · push_neg at hc
      rw [iterCount_of_gt hc]
      show (if c ≤ radius then
        ringPoints T arc angle c ++
          scanLoop T radius step arc angle n (c + step) else []) = _
      rw [if_neg (not_le.mpr hc)]
      rfl

lemma iterCount_start {radius step : ℚ} (hr : 0 < radius) (hstep : 0 < step) :
    iterCount radius step step = (⌊radius / step⌋).toNat := by
  unfold iterCount
  by_cases h : step ≤ radius
  · rw [if_pos h]
    have hd : (radius - step) / step = radius / step - 1 := by
      field_simp
    have h1 : (1 : ℚ) ≤ radius / step := by
      rw [le_div_iff₀ hstep]
      linarith
    have hfl : (1 : ℤ) ≤ ⌊radius / step⌋ :=
      Int.le_floor.mpr (by exact_mod_cast h1)
    rw [hd, Int.floor_sub_one]
    omega
  · rw [if_neg h]
    push_neg at h
    have hlt : radius / step < 1 := by
      rw [div_lt_one hstep]
      linarith
    have hge : (0 : ℚ) ≤ radius / step := by
      apply div_nonneg (le_of_lt hr) (le_of_lt hstep)
    have : ⌊radius / step⌋ = 0 := by
      apply Int.floor_eq_zero_iff.mpr
      rw [Set.mem_Ico]
      exact ⟨hge, hlt⟩
    omega

/-- Closed form of `generate_scan_points` for valid parameters: the center
point followed by the concatenated rings at radii `step, 2*step, …`. -/
lemma generate_scan_points_eq (T : TrigModel) (radius step arc angle : ℚ)
    (hr : 0 < radius) (hs : 0 < step) (ha : 0 < arc) (hang : 0 < angle) :
    generate_scan_points T radius step arc angle =
      some ((⟨0, 0, 0, 0⟩ : ScanPoint) ::
        (ringList T arc (if 360 < angle then 360 else angle) step step
          ((⌊radius / step⌋).toNat)).flatten) := by
  unfold generate_scan_points
  rw [if_neg (by push_neg; exact ⟨hr, hs, ha⟩), if_neg (not_le.mpr hang)]
  have hfuel : iterCount radius step step ≤ (⌊radius / step⌋).toNat + 1 := by
    rw [iterCount_start hr hs]
    omega
  rw [scanLoop_eq_ringList T radius step arc _ hs _ step hfuel]
  rw [iterCount_start hr hs]

lemma normalize_angle_eq_self {a : ℚ} (h0 : 0 ≤ a) (h1 : a < 360) :
    normalize_angle_degrees a = a := by
  unfold normalize_angle_degrees
  have : ⌊a / 360⌋ = 0 := by
    apply Int.floor_eq_zero_iff.mpr
    rw [Set.mem_Ico]
    constructor
    · positivity
    · rw [div_lt_one (by norm_num)]
      linarith
  rw [this]
  norm_num

lemma normalize_angle_360 : normalize_angle_degrees 360 = 0 := by
  unfold normalize_angle_degrees
  norm_num

lemma ringPoints_get (T : TrigModel) (arc angle r : ℚ) (i : ℕ)
    (hi : i < (ringPoints T arc angle r).length) :
    (ringPoints T arc angle r).get ⟨i, hi⟩ =
      ringPoint T r ((i : ℚ) * ringStep T arc angle r) := by
  simp only [ringPoints, List.get_eq_getElem, List.getElem_map, List.getElem_range]

lemma ringStep_nonneg (T : TrigModel) (arc angle r : ℚ) (h0 : 0 ≤ angle) :
    0 ≤ ringStep T arc angle r := by
  unfold ringStep
  split
  · rename_i h
    apply div_nonneg h0
    have : (2 : ℚ) ≤ (ringCount T arc angle r : ℚ) := by exact_mod_cast h
    linarith
  · exact le_refl 0

lemma ringPoints_raw_angle_le (T : TrigModel) (arc angle r : ℚ) (h0 : 0 ≤ angle)
    (i : ℕ) (hi : i < ringCount T arc angle r) :
    (i : ℚ) * ringStep T arc angle r ≤ angle := by
  unfold ringStep
  by_cases hn : 1 < ringCount T arc angle r
  · rw [if_pos hn]
    have hcast : (i : ℚ) ≤ (ringCount T arc angle r : ℚ) - 1 := by
      have : i + 1 ≤ ringCount T arc angle r := hi
      have := Nat.cast_le (α := ℚ).mpr this
      push_cast at this
      linarith
    have hpos : (0 : ℚ) < (ringCount T arc angle r : ℚ) - 1 := by
      have : (2 : ℚ) ≤ (ringCount T arc angle r : ℚ) := by exact_mod_cast hn
      linarith
    calc (i : ℚ) * (angle / ((ringCount T arc angle r : ℚ) - 1))
        ≤ ((ringCount T arc angle r : ℚ) - 1) * (angle / ((ringCount T arc angle r : ℚ) - 1)) := by
          apply mul_le_mul_of_nonneg_right hcast
          positivity
      _ = angle := by
          field_simp
  · rw [if_neg hn]
    simpa using h0

/-- Claim C1.  For valid parameters with `angle_deg = 360`, the planner's
output starts with the exact center point `(0,0,0,0)` and the rest of the
list is the concatenation of `⌊radius/step⌋` nonempty rings, ring `i`
consisting entirely of points at radius `(i+1) * radial_step_mm` — so the
ring radii increase by exactly `radial_step_mm` while they stay `≤
radius_mm`. -/
theorem C1_center_and_ring_structure (T : TrigModel) (radius step arc : ℚ)
    (hr : 0 < radius) (hs : 0 < step) (ha : 0 < arc) :
    ∃ pts : List ScanPoint,
      generate_scan_points T radius step arc 360 = some pts ∧
      pts ≠ [] ∧
      pts.head? = some ⟨0, 0, 0, 0⟩ ∧
      ∃ rings : List (List ScanPoint),
        pts.tail = rings.flatten ∧
        rings.length = (⌊radius / step⌋).toNat ∧
        ∀ i : ℕ, ∀ hi : i < rings.length,
          rings.get ⟨i, hi⟩ ≠ [] ∧
          (∀ p ∈ rings.get ⟨i, hi⟩, p.radius_mm = ((i : ℚ) + 1) * step) ∧
          ((i : ℚ) + 1) * step ≤ radius := by
  have heq := generate_scan_points_eq T radius step arc 360 hr hs ha (by norm_num)
  rw [if_neg (by norm_num)] at heq
  refine ⟨_, heq, by simp, by simp, ?_⟩
  refine ⟨ringList T arc 360 step step ((⌊radius / step⌋).toNat), by simp, ?_, ?_⟩
  · unfold ringList
    rw [List.length_map, List.length_range]
  · intro i hi
    have hlen : (ringList T arc 360 step step ((⌊radius / step⌋).toNat)).length =
        (⌊radius / step⌋).toNat := by
      unfold ringList
      rw [List.length_map, List.length_range]
    have hget : (ringList T arc 360 step step ((⌊radius / step⌋).toNat)).get ⟨i, hi⟩ =
        ringPoints T arc 360 (step + (i : ℚ) * step) := by
      simp only [ringList, List.get_eq_getElem, List.getElem_map, List.getElem_range]
    rw [hget]
    have hrad : step + (i : ℚ) * step = ((i : ℚ) + 1) * step := by ring
    refine ⟨ringPoints_ne_nil T arc 360 _, ?_, ?_⟩
    · intro p hp
      rw [← hrad]
      exact ringPoints_radius T arc 360 _ p hp
    · rw [← hrad]
      have hi2 : i < (⌊radius / step⌋).toNat := by rw [← hlen]; exact hi
      have hfloor : ((i : ℚ) + 1) ≤ ((⌊radius / step⌋).toNat : ℚ) := by
        exact_mod_cast hi2
      have htoNat : ((⌊radius / step⌋).toNat : ℚ) ≤ radius / step := by
        have h0 : (0 : ℤ) ≤ ⌊radius / step⌋ := by
          apply Int.floor_nonneg.mpr
          positivity
        have : ((⌊radius / step⌋).toNat : ℤ) = ⌊radius / step⌋ := Int.toNat_of_nonneg h0
        calc ((⌊radius / step⌋).toNat : ℚ) = ((⌊radius / step⌋ : ℤ) : ℚ) := by
              exact_mod_cast congrArg (fun z : ℤ => (z : ℚ)) this
          _ ≤ radius / step := Int.floor_le _
      have : (i : ℚ) + 1 ≤ radius / step := le_trans hfloor htoNat
      calc step + (i : ℚ) * step = ((i : ℚ) + 1) * step := by ring
        _ ≤ (radius / step) * step := by
            apply mul_le_mul_of_nonneg_right this (le_of_lt hs)
        _ = radius := by field_simp

/-- Witness for C1 at `radius = 10`, `step = 2`, `arc = 1`. -/
theorem C1_center_and_ring_structure_witness :
    ∃ pts : List ScanPoint,
      generate_scan_points sampleTrig 10 2 1 360 = some pts ∧
      pts ≠ [] ∧
      pts.head? = some ⟨0, 0, 0, 0⟩ ∧
      ∃ rings : List (List ScanPoint),
        pts.tail = rings.flatten ∧
        rings.length = (⌊(10 : ℚ) / 2⌋).toNat ∧
        ∀ i : ℕ, ∀ hi : i < rings.length,
          rings.get ⟨i, hi⟩ ≠ [] ∧
          (∀ p ∈ rings.get ⟨i, hi⟩, p.radius_mm = ((i : ℚ) + 1) * 2) ∧
          ((i : ℚ) + 1) * 2 ≤ 10 :=
  C1_center_and_ring_structure sampleTrig 10 2 1 (by norm_num) (by norm_num)
    (by norm_num)

lemma ringCount_cast_sub_one_pos (T : TrigModel) {arc angle r : ℚ}
    (hn : 1 < ringCount T arc angle r) :
    (0 : ℚ) < (ringCount T arc angle r : ℚ) - 1 := by
  have : (2 : ℚ) ≤ (ringCount T arc angle r : ℚ) := by exact_mod_cast hn
  linarith

lemma ringPoints_angle_formula (T : TrigModel) (arc angle r : ℚ)
    (h0 : 0 < angle) (h360 : angle < 360)
    (hn : 1 < ringCount T arc angle r)
    (i : ℕ) (hi : i < (ringPoints T arc angle r).length) :
    ((ringPoints T arc angle r).get ⟨i, hi⟩).angle_deg =
      (i : ℚ) * (angle / ((ringCount T arc angle r : ℚ) - 1)) := by
  rw [ringPoints_get]
  have hstep : ringStep T arc angle r = angle / ((ringCount T arc angle r : ℚ) - 1) := by
    unfold ringStep
    rw [if_pos hn]
  have hiC : i < ringCount T arc angle r := by
    rw [ringPoints_length] at hi
    exact hi
  have hle : (i : ℚ) * ringStep T arc angle r ≤ angle :=
    ringPoints_raw_angle_le T arc angle r (le_of_lt h0) i hiC
  have hge : (0 : ℚ) ≤ (i : ℚ) * ringStep T arc angle r := by
    apply mul_nonneg (by positivity)
    exact ringStep_nonneg T arc angle r (le_of_lt h0)
  show (ringPoint T r ((i : ℚ) * ringStep T arc angle r)).angle_deg = _
  unfold ringPoint
  show normalize_angle_degrees ((i : ℚ) * ringStep T arc angle r) = _
  rw [normalize_angle_eq_self hge (lt_of_le_of_lt hle h360), hstep]

/-- Claim C2.  For valid parameters with `0 < angle_deg < 360`, on every
ring of the planner's output that has more than one point the emitted
angles are exactly `i * (angle_deg / (n-1))`; in particular the first
emitted angle on the ring is `0` and the last one is exactly `angle_deg`,
not a multiple of the uncorrected step. -/
theorem C2_corrected_step_spans_angle (T : TrigModel) (radius step arc angle : ℚ)
    (hr : 0 < radius) (hs : 0 < step) (ha : 0 < arc)
    (h0 : 0 < angle) (h360 : angle < 360) :
    ∃ pts : List ScanPoint,
      generate_scan_points T radius step arc angle = some pts ∧
      ∃ rings : List (List ScanPoint),
        pts.tail = rings.flatten ∧
        ∀ ring ∈ rings, ∀ h1 : 1 < ring.length,
          (∀ i : ℕ, ∀ hi : i < ring.length,
            (ring.get ⟨i, hi⟩).angle_deg =
              (i : ℚ) * (angle / ((ring.length : ℚ) - 1))) ∧
          (ring.get ⟨0, by omega⟩).angle_deg = 0 ∧
          (ring.get ⟨ring.length - 1, by omega⟩).angle_deg = angle := by
  have heq := generate_scan_points_eq T radius step arc angle hr hs ha h0
  rw [if_neg (not_lt.mpr (le_of_lt h360))] at heq
  refine ⟨_, heq, ringList T arc angle step step ((⌊radius / step⌋).toNat), by simp, ?_⟩
  intro ring hring h1
  simp only [ringList, List.mem_map, List.mem_range] at hring
  obtain ⟨j, _, rfl⟩ := hring
  have hlen := ringPoints_length T arc angle (step + (j : ℚ) * step)
  have hn : 1 < ringCount T arc angle (step + (j : ℚ) * step) := by
    rw [hlen] at h1
    exact h1
  constructor
  · intro i hi
    rw [ringPoints_angle_formula T arc angle _ h0 h360 hn i hi, hlen]
  · constructor
    · rw [ringPoints_angle_formula T arc angle _ h0 h360 hn 0 (by omega)]
      norm_num
    · rw [ringPoints_angle_formula T arc angle _ h0 h360 hn
        ((ringPoints T arc angle (step + (j : ℚ) * step)).length - 1) (by omega)]
      rw [hlen]
      have hcast : ((ringCount T arc angle (step + (j : ℚ) * step) - 1 : ℕ) : ℚ) =
          (ringCount T arc angle (step + (j : ℚ) * step) : ℚ) - 1 := by
        have : 1 ≤ ringCount T arc angle (step + (j : ℚ) * step) := by omega
        push_cast [Nat.cast_sub this]
        ring
      rw [hcast]
      have hne : (ringCount T arc angle (step + (j : ℚ) * step) : ℚ) - 1 ≠ 0 :=
        ne_of_gt (ringCount_cast_sub_one_pos T hn)
      field_simp

/-- Witness for C2 at `radius = 10`, `step = 2`, `arc = 1`, `angle = 90`. -/
theorem C2_corrected_step_spans_angle_witness :
    ∃ pts : List ScanPoint,
      generate_scan_points sampleTrig 10 2 1 90 = some pts ∧
      ∃ rings : List (List ScanPoint),
        pts.tail = rings.flatten ∧
        ∀ ring ∈ rings, ∀ h1 : 1 < ring.length,
          (∀ i : ℕ, ∀ hi : i < ring.length,
            (ring.get ⟨i, hi⟩).angle_deg =
              (i : ℚ) * (90 / ((ring.length : ℚ) - 1))) ∧
          (ring.get ⟨0, by omega⟩).angle_deg = 0 ∧
          (ring.get ⟨ring.length - 1, by omega⟩).angle_deg = 90 :=
  C2_corrected_step_spans_angle sampleTrig 10 2 1 90 (by norm_num) (by norm_num)
    (by norm_num) (by norm_num) (by norm_num)

lemma ringPoint_360_eq_ringPoint_0 (T : TrigModel) (r : ℚ) :
    ringPoint T r 360 = ringPoint T r 0 := by
  unfold ringPoint
  rw [normalize_angle_360, normalize_angle_eq_self (le_refl 0) (by norm_num)]

/-- Claim C10.  For `angle_deg = 360`, on every ring of the planner's
output with more than one point, the last raw angle `(n-1) * (360/(n-1)) =
360` is normalized to `0`, so the last point of the ring is exactly equal
(in radius, angle, x and y) to its first point: the angle-0 position is
emitted twice on every such ring. -/
theorem C10_full_circle_duplicates_first_point (T : TrigModel)
    (radius step arc : ℚ) (hr : 0 < radius) (hs : 0 < step) (ha : 0 < arc) :
    ∃ pts : List ScanPoint,
      generate_scan_points T radius step arc 360 = some pts ∧
      ∃ rings : List (List ScanPoint),
        pts.tail = rings.flatten ∧
        ∀ ring ∈ rings, ∀ h1 : 1 < ring.length,
          ring.get ⟨ring.length - 1, by omega⟩ = ring.get ⟨0, by omega⟩ ∧
          (ring.get ⟨0, by omega⟩).angle_deg = 0 := by
  have heq := generate_scan_points_eq T radius step arc 360 hr hs ha (by norm_num)
  rw [if_neg (by norm_num)] at heq
  refine ⟨_, heq, ringList T arc 360 step step ((⌊radius / step⌋).toNat), by simp, ?_⟩
  intro ring hring h1
  simp only [ringList, List.mem_map, List.mem_range] at hring
  obtain ⟨j, _, rfl⟩ := hring
  set r := step + (j : ℚ) * step with hrdef
  have hlen := ringPoints_length T arc 360 r
  have hn : 1 < ringCount T arc 360 r := by
    rw [hlen] at h1
    exact h1
  have hstep : ringStep T arc 360 r = 360 / ((ringCount T arc 360 r : ℚ) - 1) := by
    unfold ringStep
    rw [if_pos hn]
  have hne : (ringCount T arc 360 r : ℚ) - 1 ≠ 0 :=
    ne_of_gt (ringCount_cast_sub_one_pos T hn)
  have hlast : ((ringPoints T arc 360 r).length - 1 : ℕ) < (ringPoints T arc 360 r).length := by
    omega
  have hraw : (((ringPoints T arc 360 r).length - 1 : ℕ) : ℚ) * ringStep T arc 360 r = 360 := by
    rw [hlen, hstep]
    have : 1 ≤ ringCount T arc 360 r := by omega
    rw [Nat.cast_sub this]
    push_cast
    field_simp
  constructor
  · rw [ringPoints_get, ringPoints_get, hraw]
    norm_num
    exact ringPoint_360_eq_ringPoint_0 T r
  · rw [ringPoints_get]
    norm_num
    unfold ringPoint
    show normalize_angle_degrees 0 = 0
    exact normalize_angle_eq_self (le_refl 0) (by norm_num)

/-- Witness for C10 at `radius = 10`, `step = 2`, `arc = 1`. -/
theorem C10_full_circle_duplicates_first_point_witness :
    ∃ pts : List ScanPoint,
      generate_scan_points sampleTrig 10 2 1 360 = some pts ∧
      ∃ rings : List (List ScanPoint),
        pts.tail = rings.flatten ∧
        ∀ ring ∈ rings, ∀ h1 : 1 < ring.length,
          ring.get ⟨ring.length - 1, by omega⟩ = ring.get ⟨0, by omega⟩ ∧
          (ring.get ⟨0, by omega⟩).angle_deg = 0 :=
  C10_full_circle_duplicates_first_point sampleTrig 10 2 1 (by norm_num)
    (by norm_num) (by norm_num)

lemma pyRound_intCast (n : ℤ) : pyRound (n : ℚ) = n := by
  unfold pyRound
  simp only [Int.floor_intCast]
  norm_num

/-- Claim C4.  Fitting the Linear model with 2 calibration points fails
(the service reports the invalid-parameter condition by returning `False`
before touching the state) while any 3 points succeed; fitting the
Homography model with 3 points fails, while the 4 well-conditioned
(pairwise non-collinear-triple) unit-square correspondences succeed. -/
theorem C4_fit_minimum_points (T : TrigModel) :
    (∀ s : CalibState, s.points.length = 2 →
      (calculate_transformation_simple T s).1 = false) ∧
    (∀ s : CalibState, s.points.length = 3 →
      (calculate_transformation_simple T s).1 = true) ∧
    (∀ s : CalibState, s.points.length = 3 →
      (calculate_transformation_homography s).1 = false) ∧
    wellConditioned4 (0, 0) (1, 0) (1, 1) (0, 1) = true ∧
    (calculate_transformation_homography squareState).1 = true := by
  refine ⟨?_, ?_, ?_, ?_, ?_⟩
  · intro s h
    obtain ⟨a, b, hp⟩ := List.length_eq_two.mp h
    simp [calculate_transformation_simple, hp]
  · intro s h
    obtain ⟨a, b, c, hp⟩ := List.length_eq_three.mp h
    simp [calculate_transformation_simple, hp]
  · intro s h
    simp [calculate_transformation_homography, h]
  · norm_num [wellConditioned4, collinear]
  · norm_num [calculate_transformation_homography, squareState, squarePoints,
      initCalibState, findHomography, gaussSolve, findPivot, elimRow, dltRows]

/-- Witness for C4 at concrete two-, three- and four-point states. -/
theorem C4_fit_minimum_points_witness :
    (calculate_transformation_simple sampleTrig twoPointState).1 = false ∧
    (calculate_transformation_simple sampleTrig threePointState).1 = true ∧
    (calculate_transformation_homography threePointState).1 = false ∧
    wellConditioned4 (0, 0) (1, 0) (1, 1) (0, 1) = true ∧
    (calculate_transformation_homography squareState).1 = true := by
  have h := C4_fit_minimum_points sampleTrig
  exact ⟨h.1 twoPointState rfl, h.2.1 threePointState rfl,
    h.2.2.1 threePointState rfl, h.2.2.2.1, h.2.2.2.2⟩

lemma simple_fit_false_state (T : TrigModel) (s : CalibState)
    (h : (calculate_transformation_simple T s).1 = false) :
    (calculate_transformation_simple T s).2 = s := by
  rcases hp : s.points with _ | ⟨p1, t1⟩
  · simp [calculate_transformation_simple, hp]
  · rcases t1 with _ | ⟨p2, t2⟩
    · simp [calculate_transformation_simple, hp]
    · rcases t2 with _ | ⟨p3, t3⟩
      · simp [calculate_transformation_simple, hp]
      · simp [calculate_transformation_simple, hp] at h

lemma homography_fit_false_state (s : CalibState)
    (h : (calculate_transformation_homography s).1 = false) :
    (calculate_transformation_homography s).2 = s := by
  unfold calculate_transformation_homography at h ⊢
  by_cases hlen : s.points.length < 4
  · simp [hlen]
  · rcases hfh : findHomography s.points with _ | m
    · simp [hlen, hfh]
    · simp [hlen, hfh] at h

lemma finish_false_state (T : TrigModel) (s : CalibState) (u : Bool)
    (s2 : CalibState)
    (h : finish_calibration T s u = .ok (false, s2)) :
    s2 = s ∨ s2 = { s with is_calibrating := false } := by
  unfold finish_calibration at h
  by_cases hc : s.is_calibrating = true
  · rw [if_neg (not_not_intro hc)] at h
    by_cases hlen : s.points.length < (if u then 4 else 3)
    · rw [if_pos hlen] at h
      left
      have hpair := Except.ok.inj h
      exact ((Prod.mk.injEq _ _ _ _).mp hpair).2.symm
    · rw [if_neg hlen] at h
      right
      cases u
      · rw [if_neg (by simp)] at h
        have hpair : calculate_transformation_simple T
            { s with is_calibrating := false } = (false, s2) := Except.ok.inj h
        have h1 : (calculate_transformation_simple T
            { s with is_calibrating := false }).1 = false := by rw [hpair]
        have h2 := simple_fit_false_state T _ h1
        rw [hpair] at h2
        simpa using h2
      · rw [if_pos rfl] at h
        have hpair : calculate_transformation_homography
            { s with is_calibrating := false } = (false, s2) := Except.ok.inj h
        have h1 : (calculate_transformation_homography
            { s with is_calibrating := false }).1 = false := by rw [hpair]
        have h2 := homography_fit_false_state _ h1
        rw [hpair] at h2
        simpa using h2
  · rw [if_pos hc] at h
    simp at h

/-- Claim C6.  A failed fit leaves the previously active model intact:
whichever way a fit fails (too few points, estimator failure), the model
tag, the scale/offset coefficients and the homography matrix after the
call equal those before it; for the two direct fit entry points the whole
state is untouched, and a failed `finish_calibration` alters at most the
`_is_calibrating` flag. -/
theorem C6_failed_fit_preserves_model (T : TrigModel) :
    (∀ s : CalibState, (calculate_transformation_simple T s).1 = false →
      (calculate_transformation_simple T s).2 = s) ∧
    (∀ s : CalibState, (calculate_transformation_homography s).1 = false →
      (calculate_transformation_homography s).2 = s) ∧
    (∀ (s : CalibState) (u : Bool) (s2 : CalibState),
      finish_calibration T s u = .ok (false, s2) →
      modelCoefficients s2 = modelCoefficients s) := by
  refine ⟨simple_fit_false_state T, homography_fit_false_state, ?_⟩
  intro s u s2 h
  rcases finish_false_state T s u s2 h with h2 | h2 <;> (subst h2; rfl)

/-- Witness for C6: the empty state fails both direct fits unchanged, and
an open session with no points fails `finish_calibration` with its model
coefficients intact. -/
theorem C6_failed_fit_preserves_model_witness :
    (calculate_transformation_simple sampleTrig initCalibState).2 = initCalibState ∧
    (calculate_transformation_homography initCalibState).2 = initCalibState ∧
    modelCoefficients calibratingEmpty = modelCoefficients calibratingEmpty := by
  have h := C6_failed_fit_preserves_model sampleTrig
  refine ⟨h.1 initCalibState rfl, h.2.1 initCalibState rfl,
    h.2.2 calibratingEmpty false calibratingEmpty rfl⟩

lemma calibStep_preserves_unfitted (T : TrigModel) (s : CalibState) (op : CalibOp)
    (hflag : s.is_calibrated_flag = false) (hmat : s.homography_matrix = none)
    (hop : fitSucceeded T s op = false) :
    (calibStep T s op).is_calibrated_flag = false ∧
      (calibStep T s op).homography_matrix = none := by
  cases op with
  | startCal =>
    by_cases hc : s.is_calibrating = true
    · simp [calibStep, start_calibration, hc, hflag, hmat]
    · simp [calibStep, start_calibration, hc, hflag, hmat]
  | addPoint p =>
    by_cases hc : s.is_calibrating = true
    · simp [calibStep, add_calibration_point, hc, hflag, hmat]
    · simp [calibStep, add_calibration_point, hc, hflag, hmat]
  | fitSimple =>
    have hs := simple_fit_false_state T s (by simpa [fitSucceeded] using hop)
    simp only [calibStep]
    rw [hs]
    exact ⟨hflag, hmat⟩
  | fitHomography =>
    have hs := homography_fit_false_state s (by simpa [fitSucceeded] using hop)
    simp only [calibStep]
    rw [hs]
    exact ⟨hflag, hmat⟩
  | finishCal u =>
    rcases hf : finish_calibration T s u with e | r
    · simp [calibStep, hf, hflag, hmat]
    · obtain ⟨b, s2⟩ := r
      have hb : b = false := by
        have := hop
        simp only [fitSucceeded, hf] at this
        exact this
      subst hb
      rcases finish_false_state T s u s2 hf with h2 | h2 <;>
        subst h2 <;> simp [calibStep, hf, hflag, hmat]
  | cancelCal =>
    by_cases hc : s.is_calibrating = true
    · simp [calibStep, cancel_calibration, hc, hflag, hmat]
    · simp [calibStep, cancel_calibration, hc, hflag, hmat]

lemma runCalib_unfitted (T : TrigModel) :
    ∀ (ops : List CalibOp) (s : CalibState),
      s.is_calibrated_flag = false → s.homography_matrix = none →
      anyFitSucceeded T s ops = false →
      (runCalib T s ops).is_calibrated_flag = false ∧
        (runCalib T s ops).homography_matrix = none := by
  intro ops
  induction ops with
  | nil =>
    intro s h1 h2 _
    exact ⟨h1, h2⟩
  | cons op rest ih =>
    intro s h1 h2 hall
    simp only [anyFitSucceeded, Bool.or_eq_false_iff] at hall
    obtain ⟨hop, hrest⟩ := hall
    have hstep := calibStep_preserves_unfitted T s op h1 h2 hop
    simp only [runCalib]
    exact ih (calibStep T s op) hstep.1 hstep.2 hrest

lemma transforms_none_of_not_calibrated (T : TrigModel) (s : CalibState)
    (h : s.is_calibrated = false) :
    (∀ x y : ℚ, world_to_image T s x y = none) ∧
      (∀ px py : ℤ, image_to_world T s px py = none) := by
  constructor
  · intro x y
    simp [world_to_image, h]
  · intro px py
    simp [image_to_world, h]

/-- Claim C5.  `is_calibrated()` is true only when at least one
calibration point exists and a model has been fitted (the simple-model
flag is set or a homography matrix is stored under the homography flag);
and after any sequence of service calls in which no fit succeeded, both
`world_to_image` and `image_to_world` fail (return `None`, the
not-calibrated outcome). -/
theorem C5_calibrated_requires_fit (T : TrigModel) :
    (∀ s : CalibState, s.is_calibrated = true →
      s.points ≠ [] ∧
        (s.is_calibrated_flag ||
          (s.use_homography && s.homography_matrix.isSome)) = true) ∧
    (∀ ops : List CalibOp, anyFitSucceeded T initCalibState ops = false →
      (runCalib T initCalibState ops).is_calibrated = false ∧
      (∀ x y : ℚ, world_to_image T (runCalib T initCalibState ops) x y = none) ∧
      (∀ px py : ℤ,
        image_to_world T (runCalib T initCalibState ops) px py = none)) := by
  constructor
  · intro s h
    simp only [CalibState.is_calibrated, Bool.and_eq_true, decide_eq_true_eq] at h
    refine ⟨?_, h.2⟩
    intro hnil
    rw [hnil] at h
    simp at h
  · intro ops hall
    have hrun := runCalib_unfitted T ops initCalibState rfl rfl hall
    have hcal : (runCalib T initCalibState ops).is_calibrated = false := by
      simp [CalibState.is_calibrated, hrun.1, hrun.2]
    exact ⟨hcal, transforms_none_of_not_calibrated T _ hcal⟩

/-- Witness for C5: a one-point fitted state for the only-if direction,
and a session whose finish fails for lack of points for the
not-calibrated direction. -/
theorem C5_calibrated_requires_fit_witness :
    (linRoundState.points ≠ [] ∧
      (linRoundState.is_calibrated_flag ||
        (linRoundState.use_homography &&
          linRoundState.homography_matrix.isSome)) = true) ∧
    ((runCalib roundTrig initCalibState demoOps).is_calibrated = false ∧
      (∀ x y : ℚ,
        world_to_image roundTrig (runCalib roundTrig initCalibState demoOps)
          x y = none) ∧
      (∀ px py : ℤ,
        image_to_world roundTrig (runCalib roundTrig initCalibState demoOps)
          px py = none)) := by
  have h := C5_calibrated_requires_fit roundTrig
  exact ⟨h.1 linRoundState rfl, h.2 demoOps rfl⟩

/-- Claim C3 counterexample.  Fitting the Linear model to `cexPoints`
succeeds and yields `cexState`; the calibration point with world
coordinates `(3/2, 0)` was used for that fit, yet the round trip
`image_to_world(world_to_image(3/2, 0))` returns `(5/3, 0)` — off by
`1/6` mm of radius, far beyond floating tolerance (the code's own
`are_floats_equal` default is `1e-9`) — because `world_to_image` rounds
`offset + 3/2·3 = 5.5` to the integer pixel `6`. -/
theorem C3_roundtrip_counterexample :
    calculate_transformation_simple cexTrig
        { initCalibState with points := cexPoints } = (true, cexState) ∧
    (⟨(3, 0), (3/2, 0)⟩ : CalibPoint) ∈ cexState.points ∧
    world_to_image cexTrig cexState (3/2) 0 = some (6, 1) ∧
    image_to_world cexTrig cexState 6 1 = some (5/3, 0) ∧
    (1/100 : ℚ) < |(5/3 : ℚ) - 3/2| := by
  refine ⟨?_, ?_, ?_, ?_, ?_⟩
  · norm_num [calculate_transformation_simple, cexPoints, initCalibState,
      cexTrig, cexState]
  · simp [cexState, cexPoints]
  · norm_num [world_to_image, cexState, cexPoints, cexTrig,
      CalibState.is_calibrated, pyRound]
  · norm_num [image_to_world, cexState, cexPoints, cexTrig,
      CalibState.is_calibrated]
  · have h16 : |(5/3 : ℚ) - 3/2| = 1/6 := by
      rw [show (5/3 : ℚ) - 3/2 = 1/6 by norm_num, abs_of_pos (by norm_num)]
    rw [h16]
    norm_num

lemma persp_inv3_roundtrip (m : Mat3) (x y : ℚ)
    (hdet : det3 m ≠ 0)
    (hw : m.m20 * x + m.m21 * y + m.m22 ≠ 0) :
    persp
      ⟨(m.m11 * m.m22 - m.m12 * m.m21) / det3 m,
       -(m.m01 * m.m22 - m.m02 * m.m21) / det3 m,
       (m.m01 * m.m12 - m.m02 * m.m11) / det3 m,
       -(m.m10 * m.m22 - m.m12 * m.m20) / det3 m,
       (m.m00 * m.m22 - m.m02 * m.m20) / det3 m,
       -(m.m00 * m.m12 - m.m02 * m.m10) / det3 m,
       (m.m10 * m.m21 - m.m11 * m.m20) / det3 m,
       -(m.m00 * m.m21 - m.m01 * m.m20) / det3 m,
       (m.m00 * m.m11 - m.m01 * m.m10) / det3 m⟩
      ((m.m00 * x + m.m01 * y + m.m02) / (m.m20 * x + m.m21 * y + m.m22))
      ((m.m10 * x + m.m11 * y + m.m12) / (m.m20 * x + m.m21 * y + m.m22)) =
      (x, y) := by
  have hdet' : m.m00 * (m.m11 * m.m22 - m.m12 * m.m21) -
      m.m01 * (m.m10 * m.m22 - m.m12 * m.m20) +
      m.m02 * (m.m10 * m.m21 - m.m11 * m.m20) ≠ 0 := by
    simpa [det3] using hdet
  simp only [persp]
  have hC : (m.m10 * m.m21 - m.m11 * m.m20) / det3 m *
        ((m.m00 * x + m.m01 * y + m.m02) / (m.m20 * x + m.m21 * y + m.m22)) +
      -(m.m00 * m.m21 - m.m01 * m.m20) / det3 m *
        ((m.m10 * x + m.m11 * y + m.m12) / (m.m20 * x + m.m21 * y + m.m22)) +
      (m.m00 * m.m11 - m.m01 * m.m10) / det3 m =
      1 / (m.m20 * x + m.m21 * y + m.m22) := by
    simp only [det3]
    field_simp
    ring
  have hN1 : (m.m11 * m.m22 - m.m12 * m.m21) / det3 m *
        ((m.m00 * x + m.m01 * y + m.m02) / (m.m20 * x + m.m21 * y + m.m22)) +
      -(m.m01 * m.m22 - m.m02 * m.m21) / det3 m *
        ((m.m10 * x + m.m11 * y + m.m12) / (m.m20 * x + m.m21 * y + m.m22)) +
      (m.m01 * m.m12 - m.m02 * m.m11) / det3 m =
      x / (m.m20 * x + m.m21 * y + m.m22) := by
    simp only [det3]
    field_simp
    ring
  have hN2 : -(m.m10 * m.m22 - m.m12 * m.m20) / det3 m *
        ((m.m00 * x + m.m01 * y + m.m02) / (m.m20 * x + m.m21 * y + m.m22)) +
      (m.m00 * m.m22 - m.m02 * m.m20) / det3 m *
        ((m.m10 * x + m.m11 * y + m.m12) / (m.m20 * x + m.m21 * y + m.m22)) +
      -(m.m00 * m.m12 - m.m02 * m.m10) / det3 m =
      y / (m.m20 * x + m.m21 * y + m.m22) := by
    simp only [det3]
    field_simp
    ring
  rw [hC, hN1, hN2, if_neg (one_div_ne_zero hw)]
  rw [Prod.mk.injEq]
  constructor <;> (rw [div_div_div_cancel_right₀] <;> simp [hw])

/-- Claim C3 as amended.  The round trip recovers the fitted point
exactly whenever `world_to_image` loses nothing to integer-pixel
rounding — i.e. the scaled coordinates (Linear) or the projected
coordinates (Homography) are already integers — and the model's
irrational primitives (`sqrt`, `atan2`, `cos`, `sin`) are exact at the
arguments involved; in general the recovery error is the pixel
quantization, not floating tolerance. -/
theorem C3_roundtrip_amended (T : TrigModel) :
    (∀ (s : CalibState) (r a : ℚ) (u v : ℤ),
      s.is_calibrated = true →
      s.use_homography = false →
      1/1000000 < |s.scale_x| →
      1/1000000 < |s.scale_y| →
      s.offset_x + r * T.cosd a * s.scale_x = (u : ℚ) →
      s.offset_y + r * T.sind a * s.scale_y = (v : ℚ) →
      T.sqrtQ ((r * T.cosd a) ^ 2 + (r * T.sind a) ^ 2) = r →
      T.atan2d (r * T.sind a) (r * T.cosd a) = a →
      0 ≤ a →
      world_to_image T s r a = some (u, v) ∧
        image_to_world T s u v = some (r, a)) ∧
    (∀ (s : CalibState) (m : Mat3) (x y : ℚ) (u v : ℤ),
      s.is_calibrated = true →
      s.use_homography = true →
      s.homography_matrix = some m →
      det3 m ≠ 0 →
      m.m20 * x + m.m21 * y + m.m22 ≠ 0 →
      m.m00 * x + m.m01 * y + m.m02 =
        (u : ℚ) * (m.m20 * x + m.m21 * y + m.m22) →
      m.m10 * x + m.m11 * y + m.m12 =
        (v : ℚ) * (m.m20 * x + m.m21 * y + m.m22) →
      world_to_image T s x y = some (u, v) ∧
        image_to_world T s u v = some (x, y)) := by
  constructor
  · intro s r a u v hcal hhom hsx hsy hu hv hsqrt hatan ha
    have hsx0 : s.scale_x ≠ 0 := by
      intro h0
      rw [h0] at hsx
      norm_num at hsx
    have hsy0 : s.scale_y ≠ 0 := by
      intro h0
      rw [h0] at hsy
      norm_num at hsy
    constructor
    · simp only [world_to_image, hcal, hhom, Bool.false_and, not_true,
        if_false, Bool.false_eq_true, Option.some.injEq]
      rw [hu, hv, pyRound_intCast, pyRound_intCast]
    · simp only [image_to_world, hcal, hhom, Bool.false_and, not_true,
        if_false, Bool.false_eq_true]
      rw [if_pos ⟨hsx, hsy⟩]
      have hx : ((u : ℚ) - s.offset_x) / s.scale_x = r * T.cosd a := by
        rw [← hu]
        field_simp
      have hy : ((v : ℚ) - s.offset_y) / s.scale_y = r * T.sind a := by
        rw [← hv]
        field_simp
      rw [hx, hy, hsqrt, hatan, if_neg (not_lt.mpr ha)]
  · intro s m x y u v hcal hhom hm hdet hw hu hv
    have hcond : (s.use_homography && s.homography_matrix.isSome) = true := by
      rw [hhom, hm]
      rfl
    have hu' : (u : ℚ) = (m.m00 * x + m.m01 * y + m.m02) /
        (m.m20 * x + m.m21 * y + m.m22) := by
      rw [eq_div_iff hw]
      linarith [hu]
    have hv' : (v : ℚ) = (m.m10 * x + m.m11 * y + m.m12) /
        (m.m20 * x + m.m21 * y + m.m22) := by
      rw [eq_div_iff hw]
      linarith [hv]
    constructor
    · simp only [world_to_image, hcal, hhom, hm, not_true, Option.isSome_some,
        Bool.and_true, Bool.true_and, if_false, if_true, Option.some.injEq]
      simp only [persp, if_neg hw]
      rw [← hu', ← hv']
      simp [pyRound_intCast]
    · simp only [image_to_world, hcal, hhom, hm, not_true, Option.isSome_some,
        Bool.and_true, Bool.true_and, if_false, if_true]
      simp only [inv3, if_neg hdet, Option.some.injEq]
      rw [hu', hv']
      exact persp_inv3_roundtrip m x y hdet hw

/-- Witness for the amended C3: exact round trips through a fitted linear
state at `(5, 0)` and through the identity homography at `(2, 3)`. -/
theorem C3_roundtrip_amended_witness :
    (world_to_image roundTrig linRoundState 5 0 = some (10, 0) ∧
      image_to_world roundTrig linRoundState 10 0 = some (5, 0)) ∧
    (world_to_image roundTrig homRoundState 2 3 = some (2, 3) ∧
      image_to_world roundTrig homRoundState 2 3 = some (2, 3)) := by
  have h := C3_roundtrip_amended roundTrig
  constructor
  · refine h.1 linRoundState 5 0 10 0 rfl rfl ?_ ?_ ?_ ?_ ?_ ?_ (by norm_num)
    · rw [show |linRoundState.scale_x| = 2 by
        rw [show linRoundState.scale_x = 2 from rfl, abs_of_pos] <;> norm_num]
      norm_num
    · rw [show |linRoundState.scale_y| = 1 by
        rw [show linRoundState.scale_y = 1 from rfl, abs_of_pos] <;> norm_num]
      norm_num
    · norm_num [roundTrig, linRoundState, initCalibState]
    · norm_num [roundTrig, linRoundState, initCalibState]
    · norm_num [roundTrig]
    · norm_num [roundTrig]
  · refine h.2 homRoundState unitMat3 2 3 2 3 rfl rfl rfl ?_ ?_ ?_ ?_
    · norm_num [det3, unitMat3]
    · norm_num [unitMat3]
    · norm_num [unitMat3]
    · norm_num [unitMat3]

lemma fmt3_zero : fmt3 0 = "0.000" := by
  have h : pyRound ((0 : ℚ) * 1000) = 0 := by
    norm_num [pyRound]
  rw [show fmt3 0 =
      (if pyRound ((0 : ℚ) * 1000) < 0 then "-" else "") ++
        toString ((pyRound ((0 : ℚ) * 1000)).natAbs / 1000) ++ "." ++
        pad3 ((pyRound ((0 : ℚ) * 1000)).natAbs % 1000) from rfl, h]
  rfl

/-- Claim C9.  Every `AxisController.move_to_async` issues exactly one
wire command with the other axis's coordinate fixed at `0`: a linear-axis
move sends `move 0 <x_mm> 0.000` and a rotary-axis move sends
`move 0 0.000 <theta_deg>`, whatever the commanded position is. -/
theorem C9_move_wire_format (position : ℚ) :
    move_to_async_commands Axis.X position =
      ["move 0 " ++ fmt3 position ++ " 0.000"] ∧
    move_to_async_commands Axis.THETA position =
      ["move 0 0.000 " ++ fmt3 position] := by
  constructor
  · show [stm32_move_to position 0] = _
    rw [stm32_move_to, fmt3_zero]
    simp [String.append_assoc]
  · show [stm32_move_to 0 position] = _
    rw [stm32_move_to, fmt3_zero]
    simp [String.append_assoc]

lemma scanPointStep_proj (cam : ℕ → Option (ℚ × ℚ)) (i : ℕ) (pt : ScanPoint)
    (s : EngineState) :
    (scanPointStep cam i pt s).is_running = s.is_running ∧
    (scanPointStep cam i pt s).is_paused = s.is_paused ∧
    (scanPointStep cam i pt s).x_axis.estop_count = s.x_axis.estop_count ∧
    (scanPointStep cam i pt s).theta_axis.estop_count = s.theta_axis.estop_count ∧
    (scanPointStep cam i pt s).writer.closed = s.writer.closed := by
  rcases h : cam i with _ | ⟨mn, mx⟩ <;> simp [scanPointStep, h, moveAxis]

lemma scanPointStep_records (cam : ℕ → Option (ℚ × ℚ)) (i : ℕ) (pt : ScanPoint)
    (s : EngineState) :
    (scanPointStep cam i pt s).writer.records = s.writer.records ++
      ((cam i).map (fun mm => (pt.radius_mm, pt.angle_deg, mm.1, mm.2))).toList := by
  rcases h : cam i with _ | ⟨mn, mx⟩ <;> simp [scanPointStep, h, moveAxis]

lemma scanIter_stop (cam : ℕ → Option (ℚ × ℚ)) (k : ℕ) :
    ∀ (pts : List ScanPoint) (j : ℕ) (s : EngineState),
      s.is_running = true → s.is_paused = false →
      j ≤ k → k < j + pts.length →
      ∃ s2, scanIter cam (some k) (pts.enumFrom j) s = some s2 ∧
        s2.is_running = false ∧ s2.is_paused = false ∧
        s2.x_axis.estop_count = s.x_axis.estop_count + 1 ∧
        s2.theta_axis.estop_count = s.theta_axis.estop_count + 1 ∧
        EngineEvent.stopped ∈ s2.events ∧
        s2.writer.closed = s.writer.closed := by
  intro pts
  induction pts with
  | nil =>
    intro j s _ _ hjk hk
    simp only [List.length_nil, Nat.add_zero] at hk
    omega
  | cons pt rest ih =>
    intro j s hrun hpause hjk hk
    by_cases hjeq : k = j
    · subst hjeq
      refine ⟨stop_scan s, ?_, ?_, ?_, ?_, ?_, ?_, ?_⟩
      · simp [List.enumFrom, scanIter, stop_scan, hrun]
      · simp [stop_scan, hrun]
      · simp [stop_scan, hrun]
      · simp [stop_scan, hrun, emergency_stop_axis]
      · simp [stop_scan, hrun, emergency_stop_axis]
      · simp [stop_scan, hrun]
      · simp [stop_scan, hrun]
    · have hproj := scanPointStep_proj cam j pt s
      obtain ⟨s2, hit, h1, h2, h3, h4, h5, h6⟩ :=
        ih (j + 1) (scanPointStep cam j pt s)
          (by rw [hproj.1, hrun]) (by rw [hproj.2.1, hpause])
          (by omega) (by simp only [List.length_cons] at hk; omega)
      refine ⟨s2, ?_, h1, h2, ?_, ?_, h5, ?_⟩
      · simp [List.enumFrom, scanIter, hjeq, hrun, hpause, hit]
      · rw [h3, hproj.2.2.1]
      · rw [h4, hproj.2.2.2.1]
      · rw [h6, hproj.2.2.2.2]

lemma scanIter_none (cam : ℕ → Option (ℚ × ℚ)) :
    ∀ (pts : List ScanPoint) (j : ℕ) (s : EngineState),
      s.is_running = true → s.is_paused = false →
      ∃ s2, scanIter cam none (pts.enumFrom j) s = some s2 ∧
        s2.is_running = true ∧ s2.is_paused = false ∧
        s2.writer.closed = s.writer.closed ∧
        s2.writer.records = s.writer.records ++
          (pts.enumFrom j).filterMap (fun ip =>
            (cam ip.1).map (fun mm =>
              (ip.2.radius_mm, ip.2.angle_deg, mm.1, mm.2))) := by
  intro pts
  induction pts with
  | nil =>
    intro j s hrun hpause
    exact ⟨s, rfl, hrun, hpause, rfl, by simp⟩
  | cons pt rest ih =>
    intro j s hrun hpause
    have hproj := scanPointStep_proj cam j pt s
    obtain ⟨s2, hit, h1, h2, h3, h4⟩ :=
      ih (j + 1) (scanPointStep cam j pt s)
        (by rw [hproj.1, hrun]) (by rw [hproj.2.1, hpause])
    refine ⟨s2, ?_, h1, h2, ?_, ?_⟩
    · simp [List.enumFrom, scanIter, hrun, hpause, hit]
    · rw [h3, hproj.2.2.2.2]
    · rw [h4, scanPointStep_records]
      rcases hc : cam j with _ | ⟨mn, mx⟩ <;>
        simp [hc, List.enumFrom, List.filterMap_cons]

lemma camFailAt_length_all (f : ℕ → ℚ × ℚ) (k : ℕ) :
    ∀ (pts : List ScanPoint) (j : ℕ), k < j →
      ((pts.enumFrom j).filterMap (fun ip =>
        (camFailAt f k ip.1).map (fun mm =>
          (ip.2.radius_mm, ip.2.angle_deg, mm.1, mm.2)))).length = pts.length := by
  intro pts
  induction pts with
  | nil =>
    intro j _
    simp
  | cons pt rest ih =>
    intro j hkj
    simp only [List.enumFrom, List.filterMap_cons]
    rw [show camFailAt f k j = some (f j) by
      unfold camFailAt
      rw [if_neg (by omega)]]
    simp only [Option.map_some', List.length_cons]
    rw [ih (j + 1) (by omega)]

lemma camFailAt_length_skip (f : ℕ → ℚ × ℚ) (k : ℕ) :
    ∀ (pts : List ScanPoint) (j : ℕ), j ≤ k → k < j + pts.length →
      ((pts.enumFrom j).filterMap (fun ip =>
        (camFailAt f k ip.1).map (fun mm =>
          (ip.2.radius_mm, ip.2.angle_deg, mm.1, mm.2)))).length =
        pts.length - 1 := by
  intro pts
  induction pts with
  | nil =>
    intro j hjk hk
    simp only [List.length_nil, Nat.add_zero] at hk
    omega
  | cons pt rest ih =>
    intro j hjk hk
    simp only [List.enumFrom, List.filterMap_cons]
    by_cases hje : j = k
    · rw [show camFailAt f k j = none by
        unfold camFailAt
        rw [if_pos hje]]
      rw [show ((none : Option (ℚ × ℚ)).map (fun mm =>
        (pt.radius_mm, pt.angle_deg, mm.1, mm.2))) = none from rfl]
      rw [camFailAt_length_all f k rest (j + 1) (by omega)]
      simp
    · rw [show camFailAt f k j = some (f j) by
        unfold camFailAt
        rw [if_neg hje]]
      simp only [Option.map_some', List.length_cons]
      rw [ih (j + 1) (by omega) (by simp only [List.length_cons] at hk; omega)]
      have hr : 1 ≤ rest.length := by
        simp only [List.length_cons] at hk
        omega
      omega

lemma execute_scan_loop_eq (cam : ℕ → Option (ℚ × ℚ)) (stopAt : Option ℕ)
    (s s2 : EngineState)
    (h : scanIter cam stopAt s.scan_points.enum s = some s2) :
    execute_scan_loop cam stopAt s = some { s2 with
      is_running := false,
      events := s2.events ++ [EngineEvent.finished],
      writer := { s2.writer with closed := true } } := by
  unfold execute_scan_loop
  rw [h]

/-- Claim C7.  A `stop_scan` that lands mid-scan (at the loop boundary
before point `k`) clears both engine flags (the Stopped state), emits the
stopped callback, calls `emergency_stop` exactly once on the linear axis
and exactly once on the rotary axis, and — once the loop observes the
cleared flag and its `finally` block runs — leaves the data sink
closed. -/
theorem C7_stop_mid_scan (cam : ℕ → Option (ℚ × ℚ)) (pts : List ScanPoint)
    (k : ℕ) (hk : k < pts.length) :
    ∃ s, execute_scan_loop cam (some k) (startedEngine pts) = some s ∧
      s.is_running = false ∧ s.is_paused = false ∧
      s.x_axis.estop_count = 1 ∧ s.theta_axis.estop_count = 1 ∧
      EngineEvent.stopped ∈ s.events ∧
      s.writer.closed = true := by
  obtain ⟨s2, hiter, h1, h2, h3, h4, h5, h6⟩ :=
    scanIter_stop cam k pts 0 (startedEngine pts) rfl rfl (Nat.zero_le k)
      (by simpa using hk)
  have hiter2 : scanIter cam (some k) (startedEngine pts).scan_points.enum
      (startedEngine pts) = some s2 := hiter
  refine ⟨_, execute_scan_loop_eq cam (some k) (startedEngine pts) s2 hiter2,
    rfl, ?_, ?_, ?_, ?_, rfl⟩
  · simpa using h2
  · simpa using h3
  · simpa using h4
  · simpa using List.mem_append_left [EngineEvent.finished] h5

/-- Claim C8.  With frame capture (or the statistics computation) failing
at exactly one point index `k`, the scan does not abort: it runs to
normal completion (the finished callback fires, the sink is closed), the
written records are exactly those of the points with index `≠ k`, and
their count is `total_points - 1`. -/
theorem C8_single_capture_failure (f : ℕ → ℚ × ℚ) (pts : List ScanPoint)
    (k : ℕ) (hk : k < pts.length) :
    ∃ s, execute_scan_loop (camFailAt f k) none (startedEngine pts) = some s ∧
      s.is_running = false ∧
      EngineEvent.finished ∈ s.events ∧
      s.writer.closed = true ∧
      s.writer.records = pts.enum.filterMap (fun ip =>
        (camFailAt f k ip.1).map (fun mm =>
          (ip.2.radius_mm, ip.2.angle_deg, mm.1, mm.2))) ∧
      s.writer.records.length = pts.length - 1 := by
  obtain ⟨s2, hiter, h1, h2, h3, h4⟩ :=
    scanIter_none (camFailAt f k) pts 0 (startedEngine pts) rfl rfl
  have hiter2 : scanIter (camFailAt f k) none
      (startedEngine pts).scan_points.enum (startedEngine pts) = some s2 := hiter
  have hrec : s2.writer.records = (pts.enumFrom 0).filterMap (fun ip =>
      (camFailAt f k ip.1).map (fun mm =>
        (ip.2.radius_mm, ip.2.angle_deg, mm.1, mm.2))) := by
    rw [h4]
    simp [startedEngine]
  refine ⟨_, execute_scan_loop_eq (camFailAt f k) none (startedEngine pts) s2
    hiter2, rfl, ?_, rfl, ?_, ?_⟩
  · simp
  · simpa using hrec
  · have hlen := camFailAt_length_skip f k pts 0 (Nat.zero_le k)
      (by simpa using hk)
    simpa [hrec] using hlen

/-- Witness for C7: stopping before point 1 of a two-point scan. -/
theorem C7_stop_mid_scan_witness :
    (1 : ℕ) < demoScanPoints.length ∧
    ∃ s, execute_scan_loop demoCam (some 1) (startedEngine demoScanPoints) =
        some s ∧
      s.is_running = false ∧ s.is_paused = false ∧
      s.x_axis.estop_count = 1 ∧ s.theta_axis.estop_count = 1 ∧
      EngineEvent.stopped ∈ s.events ∧
      s.writer.closed = true :=
  ⟨by decide, C7_stop_mid_scan demoCam demoScanPoints 1 (by decide)⟩

/-- Witness for C8: capture failing at point 0 of a two-point scan. -/
theorem C8_single_capture_failure_witness :
    (0 : ℕ) < demoScanPoints.length ∧
    ∃ s, execute_scan_loop (camFailAt demoStats 0) none
        (startedEngine demoScanPoints) = some s ∧
      s.is_running = false ∧
      EngineEvent.finished ∈ s.events ∧
      s.writer.closed = true ∧
      s.writer.records = demoScanPoints.enum.filterMap (fun ip =>
        (camFailAt demoStats 0 ip.1).map (fun mm =>
          (ip.2.radius_mm, ip.2.angle_deg, mm.1, mm.2))) ∧
      s.writer.records.length = demoScanPoints.length - 1 :=
  ⟨by decide, C8_single_capture_failure demoStats demoScanPoints 0 (by decide)⟩

end MirorScaner
